import Mathlib

/-!
Shallow embedding of the `bevy_lint` static-analysis engine.

The definitions below are translated from the Rust sources of the
repository: `src/bevy_lint/src/config/mod.rs` (configuration overlay),
`src/bevy_lint/src/callback.rs` (compiler callback installation), and the
three lint passes under `src/bevy_lint/src/lints/`.  External collaborators
(the `toml_edit` value model, `rustc` levels and types, `clippy_utils`
helpers) are embedded as the small fragments of their behavior that the
repository code relies on; each such definition carries a doc comment
naming the source it models.  Definitions whose Rust source is part of the
repository but not shipped under `src/` (the `paths` module and
`utils/hir_parse.rs`) are modelled from the specification and are marked
as such.
-/

set_option autoImplicit false

namespace BevyLint

/-- A source span, modelled as a half-open byte interval `[lo, hi)`. -/
structure Span where
  lo : Nat
  hi : Nat
  deriving DecidableEq, Repr

/-- Whether a span covers the byte at position `pos`. -/
def span_covers (sp : Span) (pos : Nat) : Bool :=
  decide (sp.lo ≤ pos ∧ pos < sp.hi)

/-- Models `rustc_errors::Applicability`, the confidence tag on a suggested
source edit. -/
inductive Applicability where
  | machineApplicable
  | maybeIncorrect
  | hasPlaceholders
  | unspecified
  deriving DecidableEq, Repr

/-- Models `rustc_lint::Level`, the severity of a lint. -/
inductive Level where
  | allow
  | warn
  | deny
  | forbid
  deriving DecidableEq, Repr

/-- Models `rustc_lint::Level::from_str`: parses a severity string, returning
`none` for unrecognized strings. -/
def Level.from_str : String → Option Level
  | "allow" => some Level.allow
  | "warn" => some Level.warn
  | "deny" => some Level.deny
  | "forbid" => some Level.forbid
  | _ => none

/-- Models `toml_edit::Value`: a TOML value as seen by `load_config`.
Scalar kinds the code never inspects (floats, dates, arrays) are collapsed
into `otherValue`; an inline table is a key/value list with unique keys. -/
inductive TValue where
  | str (s : String)
  | int (n : Int)
  | boolean (b : Bool)
  | inlineTable (entries : List (String × TValue))
  | otherValue

/-- Models `toml_edit::InlineTable` as an association list with unique keys. -/
abbrev InlineTable := List (String × TValue)

/-- Association-list lookup by string key; models map lookup for both
`toml_edit` tables and the `BTreeMap` used for the lint configuration. -/
def assoc_get {α : Type} : List (String × α) → String → Option α
  | [], _ => none
  | (k, v) :: rest, key => if k = key then some v else assoc_get rest key

/-- Models `toml_edit::InlineTable::get`. -/
def InlineTable.get (t : InlineTable) (key : String) : Option TValue :=
  assoc_get t key

/-- Models `toml_edit::InlineTable::remove`: drops the entry with the given
key (TOML table keys are unique, so removing every match is the same). -/
def InlineTable.remove : InlineTable → String → InlineTable
  | [], _ => []
  | (k, v) :: rest, key =>
    if k = key then InlineTable.remove rest key
    else (k, v) :: InlineTable.remove rest key

/-- Models `toml_edit::Value::as_str`. -/
def value_as_str : TValue → Option String
  | TValue.str s => some s
  | _ => none

/-- Models `toml_edit::Item`: an item of a (non-inline) TOML table.
`Item::None` placeholders are omitted because `toml_edit` table iteration
filters them out before the repository code ever sees them. -/
inductive Item where
  | value (v : TValue)
  | table (entries : List (String × Item))
  | arrayOfTables

/-- Models `toml_edit::Item::get`, which indexes into any table-like item:
a standard table or an inline-table value. -/
def Item.get (item : Item) (key : String) : Option Item :=
  match item with
  | Item.table entries => assoc_get entries key
  | Item.value (TValue.inlineTable t) => (assoc_get t key).map Item.value
  | _ => none

/-- Models `toml_edit::Item::as_table`: `some` exactly for a standard table. -/
def Item.as_table : Item → Option (List (String × Item))
  | Item.table entries => some entries
  | _ => none

/-- The in-memory lint configuration map, modelling the
`BTreeMap<String, InlineTable>` behind `LINT_CONFIG` as an association list
with unique keys (lookup semantics are key-order independent). -/
abbrev LintConfigMap := List (String × InlineTable)

/-- Translates `with_config` (config/mod.rs lines 13-23): looks up the entry
for `name`, calling `func` with an empty inline table when absent. -/
def with_config {R : Type} (config_map : LintConfigMap) (name : String)
    (func : InlineTable → R) : R :=
  match assoc_get config_map name with
  | some config => func config
  | none => func ([] : InlineTable)

/-- The severity a configuration value denotes, from
`append_lint_levels_to_options` (config/mod.rs lines 91-104): a string is
parsed directly; an inline table contributes its string `level` key; any
other value (and any parse failure) yields `none`. -/
def value_level (v : TValue) : Option Level :=
  match v with
  | TValue.str s => Level.from_str s
  | TValue.inlineTable t =>
    ((InlineTable.get t "level").bind value_as_str).bind Level.from_str
  | _ => none

/-- Translates `append_lint_levels_to_options` (config/mod.rs lines 87-113).
For every entry the code first runs `lint_config.as_value().unwrap()`; an
item that is not a `Value` (a standard sub-table or array-of-tables) makes
that `unwrap` panic, modelled as `none`.  Recognized severities are pushed
onto the compiler lint options as `("bevy::" ++ name, level)` in iteration
order; unrecognized ones are skipped. -/
def append_lint_levels_to_options (opts : List (String × Level)) :
    List (String × Item) → Option (List (String × Level))
  | [] => some opts
  | (lint_name, item) :: rest =>
    match item with
    | Item.value v =>
      match value_level v with
      | some level =>
        append_lint_levels_to_options (opts ++ [("bevy::" ++ lint_name, level)]) rest
      | none => append_lint_levels_to_options opts rest
    | _ => none

/-- Translates the map-building loop of `load_config` (config/mod.rs lines
58-68): every entry whose value is an inline table has the `level` key
removed from a copy; the remainder is stored only when non-empty.  All
other entries are skipped. -/
def build_lint_config : List (String × Item) → LintConfigMap
  | [] => []
  | (k, Item.value (TValue.inlineTable t)) :: rest =>
    let extra_config := InlineTable.remove t "level"
    if extra_config.isEmpty then build_lint_config rest
    else (k, extra_config) :: build_lint_config rest
  | _ :: rest => build_lint_config rest

/-- Translates the `[package.metadata.bevy_lint]` lookup of `load_config`
(config/mod.rs lines 44-52): the section must resolve through `package`
and `metadata` and be a standard table. -/
def doc_linter_section (doc : List (String × Item)) :
    Option (List (String × Item)) :=
  (((assoc_get doc "package").bind (fun package => package.get "metadata")).bind
    (fun metadata => metadata.get "bevy_lint")).bind Item.as_table

/-- Translates `load_config` (config/mod.rs lines 25-69).  Effects on the
process are made explicit: `invoked_from_cargo` models
`was_invoked_from_cargo()`, `manifest` models the result of
`load_cargo_manifest` (`none` for a non-file input, a failed
`cargo locate-project`, an unreadable file, or a parse error), `opts`
models `compiler_config.opts.lint_opts`.  The result is the new global
map together with the new lint options; `none` models a panic (the
`unwrap` inside `append_lint_levels_to_options`).  The map is cleared
first, so every early exit yields the empty map. -/
def load_config (invoked_from_cargo : Bool)
    (manifest : Option (List (String × Item))) (opts : List (String × Level)) :
    Option (LintConfigMap × List (String × Level)) :=
  match invoked_from_cargo with
  | false => some ([], opts)
  | true =>
    match manifest with
    | none => some ([], opts)
    | some doc =>
      match doc_linter_section doc with
      | none => some ([], opts)
      | some linter_config =>
        match append_lint_levels_to_options opts linter_config with
        | none => none
        | some opts2 => some (build_lint_config linter_config, opts2)

/-- Models `rustc_lint::LintStore` as the lists of lint names, pass names
and group names registered so far. -/
structure LintStore where
  lints : List String
  passes : List String
  groups : List String
  deriving DecidableEq, Repr

/-- Modelled from the spec: the lint catalog registered by
`crate::lints::register_lints` (the `lints/mod.rs` registry is not under
`src/`; section 2 of the spec lists the three illustrative rules). -/
def register_lints (store : LintStore) : LintStore :=
  { store with
    lints := store.lints ++
      ["bevy::insert_event_resource", "bevy::main_return_without_appexit",
       "bevy::zst_query"] }

/-- Modelled from the spec: the passes registered by
`crate::lints::register_passes` (not under `src/`). -/
def register_passes (store : LintStore) : LintStore :=
  { store with
    passes := store.passes ++
      ["InsertEventResource", "MainReturnWithoutAppExit", "ZstQuery"] }

/-- Modelled from the spec: the lint groups registered by
`crate::groups::register_groups` (not under `src/`). -/
def register_groups (store : LintStore) : LintStore :=
  { store with groups := store.groups ++ ["bevy::restriction", "bevy::style"] }

/-- Models the slice of `rustc_interface::Config` that
`BevyLintCallback::config` touches: the cargo-invocation flag and parsed
manifest consumed by `load_config`, the lint options, and the
`register_lints` callback slot. -/
structure CallbackConfig where
  invoked_from_cargo : Bool
  manifest : Option (List (String × Item))
  lint_opts : List (String × Level)
  register_lints_hook : Option (LintStore → LintStore)

/-- Translates the `register_lints` replacement of
`BevyLintCallback::config` (callback.rs lines 26-39): the previously
installed hook is saved and the new hook first invokes it (when present)
and then registers the linter lints, passes and groups. -/
def install_register_lints (previous : Option (LintStore → LintStore)) :
    LintStore → LintStore :=
  fun store =>
    let store :=
      match previous with
      | some f => f store
      | none => store
    register_groups (register_passes (register_lints store))

/-- Translates `BevyLintCallback::config` (callback.rs lines 20-60) on its
modelled state: first `load_config` runs (possibly panicking, modelled by
`none`), then the `register_lints` hook is replaced by the chaining hook.
The result pairs the updated config with the new global lint map.  The
`override_queries` replacement manipulates a compiler query table that the
claims do not touch and is not modelled. -/
def BevyLintCallback.config (c : CallbackConfig) :
    Option (CallbackConfig × LintConfigMap) :=
  match load_config c.invoked_from_cargo c.manifest c.lint_opts with
  | none => none
  | some (lint_config, opts2) =>
    some
      ({ c with
          lint_opts := opts2,
          register_lints_hook :=
            some (install_register_lints c.register_lints_hook) },
        lint_config)

/-- Models `rustc_middle::ty::Ty`, the semantic (type-checked) type of an
expression, at the granularity the lint passes inspect: a nominal type
with its defining path and generic type arguments, a reference, a tuple,
or anything else. -/
inductive TyModel where
  | adt (path : List String) (args : List TyModel)
  | ref (mutbl : Bool) (inner : TyModel)
  | tup (elems : List TyModel)
  | otherTy

/-- Models `Ty::peel_refs`: strips every layer of reference (of either
mutability), and nothing else. -/
def TyModel.peel_refs : TyModel → TyModel
  | TyModel.ref _ inner => inner.peel_refs
  | t => t

/-- Models `clippy_utils::ty::match_type`: true iff the type is a nominal
(ADT) type whose defining path equals the given canonical path; generic
arguments are ignored and no wrappers are stripped. -/
def match_type (ty : TyModel) (path : List String) : Bool :=
  match ty with
  | TyModel.adt def_path _ => def_path == path
  | _ => false

namespace paths

/-- The canonical path of the Bevy `App` type.  This exact segment list
appears verbatim in `main_return_without_appexit.rs` line 104. -/
def APP : List String := ["bevy_app", "app", "App"]

/-- Modelled from the spec: the canonical path of the framework
event-buffer type `Events` referenced as `crate::paths::EVENTS` (the
`paths` module is not under `src/`). -/
def EVENTS : List String := ["bevy_ecs", "event", "Events"]

/-- Modelled from the spec: the canonical path of the framework selector
type `Query` referenced as `crate::paths::QUERY` (the `paths` module is
not under `src/`). -/
def QUERY : List String := ["bevy_ecs", "system", "query", "Query"]

end paths

/-- Models `rustc_hir::Ty`, a type as written in the source.  For a path
type, `gargs` models the `GenericArgs` list of the final path segment:
`none` when no argument list is written, and inside the list a `some`
entry is a type argument while a `none` entry is a non-type (lifetime or
const) argument. -/
inductive HirTy where
  | path (res : List String) (gargs : Option (List (Option HirTy))) (sp : Span)
  | ref (mutbl : Bool) (inner : HirTy) (sp : Span)
  | tup (elems : List HirTy) (sp : Span)
  | otherTy (sp : Span)

/-- The span of a HIR type node. -/
def HirTy.span : HirTy → Span
  | HirTy.path _ _ sp => sp
  | HirTy.ref _ _ sp => sp
  | HirTy.tup _ sp => sp
  | HirTy.otherTy sp => sp

mutual

/-- Models the host lowering from a written type to its semantic type
(`ItemCtxt::lower_ty` / `rustc_hir_analysis::lower_ty`): structural, with
path resolution already performed; non-type generic arguments are dropped
(the lint passes never inspect them). -/
def lower_ty : HirTy → TyModel
  | HirTy.path res none _ => TyModel.adt res []
  | HirTy.path res (some gargs) _ => TyModel.adt res (lower_garg_list gargs)
  | HirTy.ref mutbl inner _ => TyModel.ref mutbl (lower_ty inner)
  | HirTy.tup elems _ => TyModel.tup (lower_ty_list elems)
  | HirTy.otherTy _ => TyModel.otherTy

/-- Lowers a generic-argument list, keeping only the type arguments. -/
def lower_garg_list : List (Option HirTy) → List TyModel
  | [] => []
  | none :: rest => lower_garg_list rest
  | some t :: rest => lower_ty t :: lower_garg_list rest

/-- Lowers a list of written types. -/
def lower_ty_list : List HirTy → List TyModel
  | [] => []
  | t :: rest => lower_ty t :: lower_ty_list rest

end

/-- A suggested textual edit attached to a diagnostic: replacement text for
a target span, tagged with a confidence level. -/
structure Suggestion where
  sp : Span
  text : String
  applicability : Applicability
  deriving DecidableEq, Repr

/-- A reported finding: primary span, primary message, optional help text,
and the suggested edits. -/
structure Diagnostic where
  sp : Span
  message : String
  help : Option String
  suggestions : List Suggestion
  deriving DecidableEq, Repr

/-- Models `rustc_hir::Expr` at the granularity the lint passes inspect:
a method call (with the method name, receiver, arguments, the generic
arguments written on the method path segment, and the span of the
method-name-plus-arguments part), a block of expressions, or any other
leaf expression. -/
inductive Expr where
  | methodCall (name : String) (recv : Expr) (args : List Expr)
      (path_gargs : Option (List (Option HirTy))) (sp : Span)
  | block (stmts : List Expr) (sp : Span)
  | lit (sp : Span)

/-- Models a monotone downgrade to `HasPlaceholders`: the repeated pattern
`if let Applicability::MachineApplicable = applicability \x7b *applicability =
Applicability::HasPlaceholders; \x7d` of `insert_event_resource.rs`. -/
def downgrade_to_placeholders : Applicability → Applicability
  | Applicability.machineApplicable => Applicability.hasPlaceholders
  | a => a

/-- Models `clippy_utils::source::snippet_with_applicability` (an external
capability): `snip` is the host source-text extraction for a span.  When
the text is available it is returned with the applicability untouched;
otherwise the default is returned and a `MachineApplicable` applicability
is downgraded to `HasPlaceholders`. -/
def snippet_with_applicability (snip : Span → Option String) (sp : Span)
    (default : String) (applicability : Applicability) : String × Applicability :=
  match snip sp with
  | some s => (s, applicability)
  | none => (default, downgrade_to_placeholders applicability)

/-- Models the Debug/Display printing of a semantic type used for snippet
text (`format!` on a generic argument in `extract_ty_event_snippet` and on
the peeled type in `QueryKind::help`): an abstract total rendering. -/
def ty_to_string : TyModel → String
  | TyModel.adt p _ => p.getLastD "?"
  | TyModel.ref _ _ => "&_"
  | TyModel.tup _ => "(..)"
  | TyModel.otherTy => "_"

/-- Translates `extract_ty_event_snippet` (insert_event_resource.rs lines
115-138): for an ADT type the first generic argument is stringified and
the applicability is untouched; for a non-ADT type or an ADT with no
generic arguments the placeholder `"T"` is returned and a
`MachineApplicable` applicability is downgraded to `HasPlaceholders`. -/
def extract_ty_event_snippet (events_ty : TyModel)
    (applicability : Applicability) : String × Applicability :=
  match events_ty with
  | TyModel.adt _ (event_arg :: _) => (ty_to_string event_arg, applicability)
  | _ => ("T", downgrade_to_placeholders applicability)

/-- Translates `extract_hir_event_snippet` (insert_event_resource.rs lines
180-226): the written `Events<T>` type must be a path whose final segment
carries exactly one generic argument, a type; then the snippet for the
span of that argument is extracted with `snippet_with_applicability`.  On
any other shape the placeholder `"T"` is returned and a
`MachineApplicable` applicability is downgraded to `HasPlaceholders`. -/
def extract_hir_event_snippet (snip : Span → Option String)
    (events_hir_ty : HirTy) (applicability : Applicability) :
    String × Applicability :=
  match events_hir_ty with
  | HirTy.path _ (some [some t]) _ =>
    snippet_with_applicability snip t.span "T" applicability
  | _ => ("T", downgrade_to_placeholders applicability)

/-- The primary message of the `insert_resource` form of the lint. -/
def insert_resource_msg : String :=
  "called `App::insert_resource(Events<T>)` instead of `App::add_event::<T>()`"

/-- The primary message of the `init_resource` form of the lint. -/
def init_resource_msg : String :=
  "called `App::init_resource::<Events<T>>()` instead of `App::add_event::<T>()`"

/-- The help text shared by both forms of the lint. -/
def events_help_msg : String :=
  "inserting an `Events` resource does not fully setup that event"

/-- Builds the diagnostic `span_lint_and_sugg` emits for
`INSERT_EVENT_RESOURCE`: suggestion at the method span, replacement text
around the extracted snippet, with the extracted applicability. -/
def mk_event_diag (method_span : Span) (message : String)
    (extracted : String × Applicability) : Diagnostic :=
  { sp := method_span
    message := message
    help := some events_help_msg
    suggestions :=
      [{ sp := method_span
         text := "add_event::<" ++ extracted.1 ++ ">()"
         applicability := extracted.2 }] }

/-- Translates `check_insert_resource` (insert_event_resource.rs lines
84-109): with exactly one argument whose semantic type is `Events`, the
event type is extracted from the semantic type (starting from
`MachineApplicable`) and one diagnostic is emitted at the method span. -/
def check_insert_resource (expr_ty : Expr → TyModel) (args : List Expr)
    (method_span : Span) : List Diagnostic :=
  match args with
  | [arg] =>
    let ty := expr_ty arg
    if match_type ty paths.EVENTS then
      [mk_event_diag method_span insert_resource_msg
        (extract_ty_event_snippet ty Applicability.machineApplicable)]
    else []
  | _ => []

/-- Translates `check_init_resource` (insert_event_resource.rs lines
141-172): the method path must carry exactly one generic argument, a type;
after lowering, if that type is `Events`, the event snippet is extracted
from the written type (starting from `MachineApplicable`) and one
diagnostic is emitted at the method span. -/
def check_init_resource (snip : Span → Option String)
    (path_gargs : Option (List (Option HirTy))) (method_span : Span) :
    List Diagnostic :=
  match path_gargs with
  | some [some resource_hir_ty] =>
    let resource_ty := lower_ty resource_hir_ty
    if match_type resource_ty paths.EVENTS then
      [mk_event_diag method_span init_resource_msg
        (extract_hir_event_snippet snip resource_hir_ty
          Applicability.machineApplicable)]
    else []
  | _ => []

/-- Translates `InsertEventResource::check_expr` (insert_event_resource.rs
lines 55-81): on a method call whose receiver type, after peeling
references, is the Bevy `App`, the `insert_resource` and `init_resource`
methods are checked; everything else is ignored.  `expr_ty` models
`cx.typeck_results().expr_ty` and `snip` the source-text capability. -/
def InsertEventResource.check_expr (expr_ty : Expr → TyModel)
    (snip : Span → Option String) (e : Expr) : List Diagnostic :=
  match e with
  | Expr.methodCall name recv args path_gargs method_span =>
    let src_ty := (expr_ty recv).peel_refs
    if match_type src_ty paths.APP then
      if name = "insert_resource" then
        check_insert_resource expr_ty args method_span
      else if name = "init_resource" then
        check_init_resource snip path_gargs method_span
      else []
    else []
  | _ => []

/-- Models `rustc_hir::FnRetTy`: either no written return type or a written
one. -/
inductive FnRetTy where
  | defaultReturn (sp : Span)
  | ret (ty : HirTy)

/-- Models the slice of `rustc_hir::FnDecl` the lint reads. -/
structure FnDecl where
  output : FnRetTy

/-- Translates the return-type guard of `MainReturnWithoutAppExit::check_fn`
(main_return_without_appexit.rs lines 70-81): the span of the return
position when the declared return type is absent or is the literal unit
type `()`, and `none` (rule does not fire) otherwise. -/
def fn_return_span : FnRetTy → Option Span
  | FnRetTy.defaultReturn sp => some sp
  | FnRetTy.ret (HirTy.tup [] sp) => some sp
  | FnRetTy.ret _ => none

/-- The description of the `MAIN_RETURN_WITHOUT_APPEXIT` lint. -/
def main_return_desc : String :=
  "an entrypoint that calls `App::run()` does not return `AppExit`"

mutual

/-- The spans, in pre-order visit order, of every method call `src.run()`
in the expression tree whose receiver type is the Bevy `App`; this is the
set of nodes at which `find_app_run_call`
(main_return_without_appexit.rs lines 91-123) emits the lint while
`for_each_expr` walks the body. -/
def app_run_spans (expr_ty : Expr → TyModel) : Expr → List Span
  | Expr.methodCall name recv args _ sp =>
    (if name = "run" ∧ match_type (expr_ty recv) paths.APP then [sp] else [])
      ++ app_run_spans expr_ty recv ++ app_run_spans_list expr_ty args
  | Expr.block stmts _ => app_run_spans_list expr_ty stmts
  | Expr.lit _ => []

/-- Pre-order collection over a list of sibling expressions. -/
def app_run_spans_list (expr_ty : Expr → TyModel) : List Expr → List Span
  | [] => []
  | e :: rest => app_run_spans expr_ty e ++ app_run_spans_list expr_ty rest

end

/-- Translates `MainReturnWithoutAppExit::check_fn`
(main_return_without_appexit.rs lines 55-88) together with
`find_app_run_call`: for the entrypoint function whose declared return
type is absent or unit, every `App::run()` call in the body yields one
diagnostic at the call span whose single suggestion replaces the return
position with `"-> AppExit"` at `MaybeIncorrect` applicability. -/
def MainReturnWithoutAppExit.check_fn (expr_ty : Expr → TyModel)
    (is_entrypoint : Bool) (declaration : FnDecl) (body : Expr) :
    List Diagnostic :=
  match is_entrypoint with
  | false => []
  | true =>
    match fn_return_span declaration.output with
    | none => []
    | some fn_ret_sp =>
      (app_run_spans expr_ty body).map (fun call_span =>
        { sp := call_span
          message := main_return_desc
          help := none
          suggestions :=
            [{ sp := fn_ret_sp
               text := "-> AppExit"
               applicability := Applicability.maybeIncorrect }] })

/-- Modelled from the spec: `detuple` from `utils/hir_parse.rs` (not under
`src/`): the element types of a tuple-shaped type, and the singleton list
of the type itself for a non-tuple type. -/
def detuple : HirTy → List HirTy
  | HirTy.tup elems _ => elems
  | t => [t]

/-- Modelled from the spec: `generic_type_at` from `utils/hir_parse.rs`
(not under `src/`): the written type at the given index of a path type
generic-argument list, `none` when the type carries no argument list, the
index is out of range, or the argument there is not a type. -/
def generic_type_at (hir_ty : HirTy) (index : Nat) : Option HirTy :=
  match hir_ty with
  | HirTy.path _ (some gargs) _ =>
    match gargs.get? index with
    | some (some t) => some t
    | _ => none
  | _ => none

/-- The kinds of selector type the rule recognizes (zst_query.rs lines
98-100). -/
inductive QueryKind where
  | query
  deriving DecidableEq, Repr

/-- Translates `QueryKind::try_from_ty` (zst_query.rs lines 103-109). -/
def QueryKind.try_from_ty (ty : TyModel) : Option QueryKind :=
  if match_type ty paths.QUERY then some QueryKind.query else none

/-- Translates `QueryKind::help` (zst_query.rs lines 111-122). -/
def QueryKind.help : QueryKind → TyModel → String
  | QueryKind.query, ty =>
    "consider using a filter instead: `With<" ++ ty_to_string ty ++ ">`"

/-- The description of the `ZST_QUERY` lint. -/
def zst_query_desc : String := "query for a zero-sized type"

/-- Translates `is_zero_sized` (zst_query.rs lines 131-141): `none` when
the type is not normalizable or its layout cannot be computed, otherwise
whether the computed byte size is zero.  `is_norm` models
`clippy_utils::ty::is_normalizable` and `layout_of` the host layout
computation, both external capabilities. -/
def is_zero_sized (is_norm : TyModel → Bool) (layout_of : TyModel → Option Nat)
    (ty : TyModel) : Option Bool :=
  match is_norm ty with
  | false => none
  | true =>
    match layout_of ty with
    | none => none
    | some size => some (size == 0)

/-- Translates `ZstQuery::check_ty` (zst_query.rs lines 61-96): when the
written type lowers to the `Query` selector, the third generic argument is
detupled and each element is lowered, peeled of references, and checked
for zero size; elements whose size is indeterminate (`none`) are skipped
exactly like non-zero-sized ones, and each definitively zero-sized element
yields one diagnostic at its span. -/
def ZstQuery.check_ty (is_norm : TyModel → Bool)
    (layout_of : TyModel → Option Nat) (hir_ty : HirTy) : List Diagnostic :=
  let ty := lower_ty hir_ty
  match QueryKind.try_from_ty ty with
  | none => []
  | some query_kind =>
    match generic_type_at hir_ty 2 with
    | none => []
    | some query_data_ty =>
      (detuple query_data_ty).filterMap (fun h =>
        let t := lower_ty h
        let peeled := t.peel_refs
        if (is_zero_sized is_norm layout_of peeled).getD false then
          some
            { sp := h.span
              message := zst_query_desc
              help := some (query_kind.help peeled)
              suggestions := [] }
        else none)

/-- Whether a semantic type has the shape from which
`extract_ty_event_snippet` can extract the inner event type: an ADT with
at least one generic argument. -/
def ty_event_extractable : TyModel → Bool
  | TyModel.adt _ (_ :: _) => true
  | _ => false

/-- Whether a written type has the shape from which
`extract_hir_event_snippet` can extract the inner event type: a path whose
final segment carries exactly one generic argument, a type. -/
def hir_event_shape_ok : HirTy → Bool
  | HirTy.path _ (some [some _]) _ => true
  | _ => false

/-- Whether a written type is the literal unit type `()`. -/
def is_unit_hir_ty : HirTy → Bool
  | HirTy.tup [] _ => true
  | _ => false

/-- Whether a declared return type is absent or the literal unit type: the
guard under which `MainReturnWithoutAppExit` activates. -/
def ret_absent_or_unit : FnRetTy → Bool
  | FnRetTy.defaultReturn _ => true
  | FnRetTy.ret ty => is_unit_hir_ty ty

/-- Applies a stack of reference wrappers (one per mutability flag in the
list) around a type. -/
def wrap_refs (ms : List Bool) (t : TyModel) : TyModel :=
  ms.foldr (fun m acc => TyModel.ref m acc) t

/-- A written `Query` type whose third generic argument is the tuple of the
given element types, as a user writes `Query<..., (elems), ...>` (the two
leading `none` entries model the elided lifetime arguments of the
selector). -/
def query_hir_ty (elems : List HirTy) (tup_sp sp : Span) : HirTy :=
  HirTy.path paths.QUERY
    (some [none, none, some (HirTy.tup elems tup_sp), none]) sp

/-- A concrete `[package.metadata.bevy_lint]` section: one inline-table
entry with a `level` key plus one extra parameter, and one inline-table
entry carrying only a `level` key. -/
def sample_section : List (String × Item) :=
  [("insert_event_resource",
     Item.value (TValue.inlineTable
       [("level", TValue.str "allow"), ("check_private", TValue.boolean true)])),
   ("zst_query",
     Item.value (TValue.inlineTable [("level", TValue.str "warn")]))]

/-- A concrete parsed manifest containing `sample_section` under
`package.metadata.bevy_lint`. -/
def sample_manifest : List (String × Item) :=
  [("package",
     Item.table [("metadata", Item.table [("bevy_lint", Item.table sample_section)])])]

/-- A concrete parsed manifest whose `bevy_lint` section contains a
standard sub-table entry, as written `[package.metadata.bevy_lint.some_lint]`
in TOML: the entry is an `Item::Table`, not a `Value`. -/
def manifest_with_subtable : List (String × Item) :=
  [("package",
     Item.table
       [("metadata",
          Item.table [("bevy_lint", Item.table [("some_lint", Item.table [])])])])]

/-- A concrete entry-point body: a block holding the single statement
`App::new().run();`, the call expression spanning bytes 16-32 with the
`run()` part at bytes 27-32; the trailing semicolon sits at byte 32. -/
def main_body : Expr :=
  Expr.block [Expr.methodCall "run" (Expr.lit ⟨16, 26⟩) [] none ⟨27, 32⟩] ⟨14, 34⟩

/-- The typing capability for `main_body`: every expression has the Bevy
`App` type. -/
def main_expr_ty : Expr → TyModel := fun _ => TyModel.adt paths.APP []

/-- A previously installed `register_lints` hook from an independent
analysis extension. -/
def prev_hook : LintStore → LintStore :=
  fun store => { store with lints := store.lints ++ ["external::lint"] }

/-- A concrete compiler config with `prev_hook` already installed in the
`register_lints` slot. -/
def sample_callback_config : CallbackConfig :=
  { invoked_from_cargo := false
    manifest := none
    lint_opts := []
    register_lints_hook := some prev_hook }

/-- The per-element step of `ZstQuery::check_ty`: lower the written element
type, peel references, and produce a diagnostic exactly when the element is
definitively zero-sized. -/
def zst_elem_diag (is_norm : TyModel → Bool) (layout_of : TyModel → Option Nat)
    (h : HirTy) : Option Diagnostic :=
  let t := lower_ty h
  let peeled := t.peel_refs
  if (is_zero_sized is_norm layout_of peeled).getD false then
    some
      { sp := h.span
        message := zst_query_desc
        help := some (QueryKind.query.help peeled)
        suggestions := [] }
  else none

/-! ### Helper lemmas -/

/-- Peeling references never yields a reference. -/
theorem peel_refs_not_ref : ∀ (t : TyModel) (m : Bool) (u : TyModel),
    t.peel_refs ≠ TyModel.ref m u
  | TyModel.adt _ _, _, _ => fun h => TyModel.noConfusion h
  | TyModel.ref _ inner, m, u => peel_refs_not_ref inner m u
  | TyModel.tup _, _, _ => fun h => TyModel.noConfusion h
  | TyModel.otherTy, _, _ => fun h => TyModel.noConfusion h

/-- Peeling references is idempotent. -/
theorem peel_refs_idem (t : TyModel) : t.peel_refs.peel_refs = t.peel_refs := by
  cases h : t.peel_refs with
  | adt p a => rfl
  | ref m u => exact absurd h (peel_refs_not_ref t m u)
  | tup l => rfl
  | otherTy => rfl

/-- Peeling sees through any stack of reference wrappers. -/
theorem peel_refs_wrap_refs (ms : List Bool) (t : TyModel) :
    (wrap_refs ms t).peel_refs = t.peel_refs := by
  induction ms with
  | nil => rfl
  | cons m ms ih =>
    show (TyModel.ref m (wrap_refs ms t)).peel_refs = t.peel_refs
    exact ih

/-- A key absent from the section is absent from the built lint map. -/
theorem build_lint_config_not_mem_keys :
    ∀ (cfg : List (String × Item)) (k : String),
    k ∉ cfg.map Prod.fst → assoc_get (build_lint_config cfg) k = none := by
  intro cfg
  induction cfg with
  | nil => intro k _; rfl
  | cons head rest ih =>
    intro k hk
    obtain ⟨k', it⟩ := head
    have hk' : k' ≠ k := by
      intro hkk
      exact hk (by simp [hkk])
    have hkrest : k ∉ rest.map Prod.fst := by
      intro hm
      exact hk (by simp [hm])
    cases it with
    | value v =>
      cases v with
      | inlineTable t =>
        have hstep : build_lint_config ((k', Item.value (TValue.inlineTable t)) :: rest)
            = if (InlineTable.remove t "level").isEmpty then build_lint_config rest
              else (k', InlineTable.remove t "level") :: build_lint_config rest := rfl
        rw [hstep]
        by_cases he : (InlineTable.remove t "level").isEmpty
        · rw [if_pos he]
          exact ih k hkrest
        · rw [if_neg he]
          show (if k' = k then some (InlineTable.remove t "level")
            else assoc_get (build_lint_config rest) k) = none
          rw [if_neg hk']
          exact ih k hkrest
      | str s => exact ih k hkrest
      | int n => exact ih k hkrest
      | boolean b => exact ih k hkrest
      | otherValue => exact ih k hkrest
    | table entries => exact ih k hkrest
    | arrayOfTables => exact ih k hkrest

/-- Looking up a section key whose value is an inline table in the built
lint map yields its parameters minus `level`, or nothing when that
remainder is empty. -/
theorem assoc_get_build_lint_config :
    ∀ (cfg : List (String × Item)) (k : String) (t : InlineTable),
    (cfg.map Prod.fst).Nodup →
    (k, Item.value (TValue.inlineTable t)) ∈ cfg →
    assoc_get (build_lint_config cfg) k =
      if (InlineTable.remove t "level").isEmpty then none
      else some (InlineTable.remove t "level") := by
  intro cfg
  induction cfg with
  | nil => intro k t _ hmem; cases hmem
  | cons head rest ih =>
    intro k t hnd hmem
    obtain ⟨k', it⟩ := head
    rw [List.map_cons, List.nodup_cons] at hnd
    obtain ⟨hknotin, hndrest⟩ := hnd
    rcases List.mem_cons.mp hmem with heq | hmemrest
    · injection heq with hk hit
      subst hk
      subst hit
      have hstep : build_lint_config ((k, Item.value (TValue.inlineTable t)) :: rest)
          = if (InlineTable.remove t "level").isEmpty then build_lint_config rest
            else (k, InlineTable.remove t "level") :: build_lint_config rest := rfl
      rw [hstep]
      by_cases he : (InlineTable.remove t "level").isEmpty
      · rw [if_pos he, if_pos he]
        exact build_lint_config_not_mem_keys rest k hknotin
      · rw [if_neg he, if_neg he]
        show (if k = k then some (InlineTable.remove t "level")
          else assoc_get (build_lint_config rest) k)
          = some (InlineTable.remove t "level")
        rw [if_pos rfl]
    · have hk' : k' ≠ k := by
        intro hkk
        subst hkk
        exact hknotin (List.mem_map.mpr ⟨_, hmemrest, rfl⟩)
      cases it with
      | value v =>
        cases v with
        | inlineTable t2 =>
          have hstep : build_lint_config ((k', Item.value (TValue.inlineTable t2)) :: rest)
              = if (InlineTable.remove t2 "level").isEmpty then build_lint_config rest
                else (k', InlineTable.remove t2 "level") :: build_lint_config rest := rfl
          rw [hstep]
          by_cases he : (InlineTable.remove t2 "level").isEmpty
          · rw [if_pos he]
            exact ih k t hndrest hmemrest
          · rw [if_neg he]
            show (if k' = k then some (InlineTable.remove t2 "level")
              else assoc_get (build_lint_config rest) k) = _
            rw [if_neg hk']
            exact ih k t hndrest hmemrest
        | str s => exact ih k t hndrest hmemrest
        | int n => exact ih k t hndrest hmemrest
        | boolean b => exact ih k t hndrest hmemrest
        | otherValue => exact ih k t hndrest hmemrest
      | table entries => exact ih k t hndrest hmemrest
      | arrayOfTables => exact ih k t hndrest hmemrest

/-- Every parameter table stored by the building loop is non-empty. -/
theorem build_lint_config_values_not_empty :
    ∀ (cfg : List (String × Item)) (kv : String × InlineTable),
    kv ∈ build_lint_config cfg → kv.2.isEmpty = false := by
  intro cfg
  induction cfg with
  | nil => intro kv h; cases h
  | cons head rest ih =>
    intro kv h
    obtain ⟨k', it⟩ := head
    cases it with
    | value v =>
      cases v with
      | inlineTable t =>
        revert h
        have hstep : build_lint_config ((k', Item.value (TValue.inlineTable t)) :: rest)
            = if (InlineTable.remove t "level").isEmpty then build_lint_config rest
              else (k', InlineTable.remove t "level") :: build_lint_config rest := rfl
        rw [hstep]
        by_cases he : (InlineTable.remove t "level").isEmpty
        · rw [if_pos he]
          exact ih kv
        · rw [if_neg he]
          intro h
          rcases List.mem_cons.mp h with rfl | hm
          · simpa using he
          · exact ih kv hm
      | str s => exact ih kv h
      | int n => exact ih kv h
      | boolean b => exact ih kv h
      | otherValue => exact ih kv h
    | table entries => exact ih kv h
    | arrayOfTables => exact ih kv h

/-- Inverting a successful `load_config` over a manifest that has a linter
section: the resulting map is the built one. -/
theorem load_config_some_inv (doc cfg : List (String × Item))
    (opts opts2 : List (String × Level)) (map : LintConfigMap)
    (hsec : doc_linter_section doc = some cfg)
    (hload : load_config true (some doc) opts = some (map, opts2)) :
    map = build_lint_config cfg := by
  simp only [load_config, hsec] at hload
  cases happ : append_lint_levels_to_options opts cfg with
  | none =>
    rw [happ] at hload
    cases hload
  | some o =>
    rw [happ] at hload
    simp only [Option.some.injEq, Prod.mk.injEq] at hload
    exact hload.1.symm

/-- The return-position guard rejects every written non-unit type. -/
theorem fn_return_span_ret_not_unit : ∀ (t : HirTy), is_unit_hir_ty t = false →
    fn_return_span (FnRetTy.ret t) = none
  | HirTy.path _ _ _, _ => rfl
  | HirTy.ref _ _ _, _ => rfl
  | HirTy.tup [] _, h => nomatch h
  | HirTy.tup (_ :: _) _, _ => rfl
  | HirTy.otherTy _, _ => rfl

/-- When the guard yields a span, the declared return type was absent or
unit. -/
theorem ret_absent_or_unit_of_span : ∀ (out : FnRetTy) (sp : Span),
    fn_return_span out = some sp → ret_absent_or_unit out = true
  | FnRetTy.defaultReturn _, _, _ => rfl
  | FnRetTy.ret (HirTy.tup [] _), _, _ => rfl
  | FnRetTy.ret (HirTy.tup (_ :: _) _), _, h => nomatch h
  | FnRetTy.ret (HirTy.path _ _ _), _, h => nomatch h
  | FnRetTy.ret (HirTy.ref _ _ _), _, h => nomatch h
  | FnRetTy.ret (HirTy.otherTy _), _, h => nomatch h

/-- The semantic-type extraction falls back to the placeholder exactly on
non-extractable shapes. -/
theorem extract_ty_not_extractable : ∀ (ty : TyModel),
    ty_event_extractable ty = false →
    extract_ty_event_snippet ty Applicability.machineApplicable
      = ("T", Applicability.hasPlaceholders)
  | TyModel.adt _ [], _ => rfl
  | TyModel.adt _ (_ :: _), h => nomatch h
  | TyModel.ref _ _, _ => rfl
  | TyModel.tup _, _ => rfl
  | TyModel.otherTy, _ => rfl

/-- The written-type extraction falls back to the placeholder on every
shape the pattern match of `extract_hir_event_snippet` rejects. -/
theorem extract_hir_not_ok (snip : Span → Option String) :
    ∀ (h : HirTy), hir_event_shape_ok h = false →
    extract_hir_event_snippet snip h Applicability.machineApplicable
      = ("T", Applicability.hasPlaceholders)
  | HirTy.path _ none _, _ => rfl
  | HirTy.path _ (some []) _, _ => rfl
  | HirTy.path _ (some [none]) _, _ => rfl
  | HirTy.path _ (some (none :: _ :: _)) _, _ => rfl
  | HirTy.path _ (some (some _ :: _ :: _)) _, _ => rfl
  | HirTy.path _ (some [some _]) _, hh => nomatch hh
  | HirTy.ref _ _ _, _ => rfl
  | HirTy.tup _ _, _ => rfl
  | HirTy.otherTy _, _ => rfl

/-- When the source text of the inner event type is available, the
written-type extraction returns it and keeps `MachineApplicable`. -/
theorem extract_hir_snip_some (snip : Span → Option String) (res : List String)
    (t : HirTy) (sp : Span) (s : String) (hs : snip t.span = some s) :
    extract_hir_event_snippet snip (HirTy.path res (some [some t]) sp)
        Applicability.machineApplicable
      = (s, Applicability.machineApplicable) := by
  show snippet_with_applicability snip t.span "T" Applicability.machineApplicable = _
  simp [snippet_with_applicability, hs]

/-- When the source text of the inner event type is unavailable, the
written-type extraction falls back to the placeholder and downgrades. -/
theorem extract_hir_snip_none (snip : Span → Option String) (res : List String)
    (t : HirTy) (sp : Span) (hs : snip t.span = none) :
    extract_hir_event_snippet snip (HirTy.path res (some [some t]) sp)
        Applicability.machineApplicable
      = ("T", Applicability.hasPlaceholders) := by
  show snippet_with_applicability snip t.span "T" Applicability.machineApplicable = _
  simp [snippet_with_applicability, hs]
  rfl

/-- On an `App::insert_resource` call with an `Events` argument, the lint
emits exactly the diagnostic built from the semantic-type extraction. -/
theorem check_expr_insert_emits (expr_ty : Expr → TyModel)
    (snip : Span → Option String) (recv arg : Expr)
    (pgs : Option (List (Option HirTy))) (msp : Span)
    (h1 : match_type ((expr_ty recv).peel_refs) paths.APP = true)
    (h2 : match_type (expr_ty arg) paths.EVENTS = true) :
    InsertEventResource.check_expr expr_ty snip
        (Expr.methodCall "insert_resource" recv [arg] pgs msp)
      = [mk_event_diag msp insert_resource_msg
          (extract_ty_event_snippet (expr_ty arg)
            Applicability.machineApplicable)] := by
  simp [InsertEventResource.check_expr, check_insert_resource, h1, h2]

/-- On an `App::init_resource::<Events<T>>` call, the lint emits exactly
the diagnostic built from the written-type extraction. -/
theorem check_expr_init_emits (expr_ty : Expr → TyModel)
    (snip : Span → Option String) (recv : Expr) (rty : HirTy) (msp : Span)
    (h1 : match_type ((expr_ty recv).peel_refs) paths.APP = true)
    (h2 : match_type (lower_ty rty) paths.EVENTS = true) :
    InsertEventResource.check_expr expr_ty snip
        (Expr.methodCall "init_resource" recv [] (some [some rty]) msp)
      = [mk_event_diag msp init_resource_msg
          (extract_hir_event_snippet snip rty
            Applicability.machineApplicable)] := by
  simp [InsertEventResource.check_expr, check_init_resource, h1, h2]

/-- On a `Query` type written with a tuple of selected elements, the rule
reduces to the per-element step over those elements. -/
theorem check_ty_query_eq (is_norm : TyModel → Bool)
    (layout_of : TyModel → Option Nat) (elems : List HirTy) (tup_sp sp : Span) :
    ZstQuery.check_ty is_norm layout_of (query_hir_ty elems tup_sp sp)
      = elems.filterMap (zst_elem_diag is_norm layout_of) := rfl

/-! ### Claims -/

/-- C1: the claim says every malformed entry under the `bevy_lint`
section — including a non-inline (standard) table — is dropped without a
panic and the load runs to completion.  The code disagrees: for a manifest
containing `[package.metadata.bevy_lint.some_lint]` the entry is an
`Item::Table`, and `append_lint_levels_to_options` runs
`lint_config.as_value().unwrap()` on it, which panics (modelled as `none`)
before the load completes. -/
theorem C1_subtable_entry_aborts_load :
    load_config true (some manifest_with_subtable) [] = none := rfl

/-- C2: whenever configuration cannot be loaded (not invoked from cargo,
no readable or parsable manifest, or no `bevy_lint` section), `load_config`
leaves the cleared (empty) map in place, raises no error, does not touch
the compiler lint options, and every subsequent `with_config` lookup for
any rule identifier observes the empty parameter table. -/
theorem C2_load_failure_observes_empty (invoked : Bool)
    (manifest : Option (List (String × Item))) (opts : List (String × Level))
    (h : invoked = false ∨ manifest = none ∨
      ∃ doc, manifest = some doc ∧ doc_linter_section doc = none) :
    load_config invoked manifest opts = some ([], opts)
    ∧ ∀ (R : Type) (name : String) (func : InlineTable → R),
        with_config ([] : LintConfigMap) name func = func ([] : InlineTable) := by
  constructor
  · rcases h with rfl | rfl | ⟨doc, rfl, hsec⟩
    · rfl
    · cases invoked <;> rfl
    · cases invoked
      · rfl
      · simp [load_config, hsec]
  · intro R name func
    rfl

/-- Witness for C2 at a concrete failing load: not invoked from cargo. -/
theorem C2_witness :
    load_config false none [] = some ([], [])
    ∧ with_config ([] : LintConfigMap) "insert_event_resource" (fun t => t)
        = ([] : InlineTable) := by
  have h := C2_load_failure_observes_empty false none [] (Or.inl rfl)
  exact ⟨h.1, h.2 InlineTable "insert_event_resource" (fun t => t)⟩

/-- C3: in the insert-event-resource rule a suggestion keeps
`MachineApplicable` exactly when the inner event type was recovered (from
the semantic type in the `insert_resource` form, from the written source
text in the `init_resource` form); on every path where it cannot be
recovered the applicability is downgraded to `HasPlaceholders`, the
snippet falls back to the placeholder `"T"`, and the suggestion is still
emitted. -/
theorem C3_snippet_applicability (snip : Span → Option String) :
    (∀ (p : List String) (a : TyModel) (rest : List TyModel),
      extract_ty_event_snippet (TyModel.adt p (a :: rest))
          Applicability.machineApplicable
        = (ty_to_string a, Applicability.machineApplicable))
    ∧ (∀ ty : TyModel, ty_event_extractable ty = false →
        extract_ty_event_snippet ty Applicability.machineApplicable
          = ("T", Applicability.hasPlaceholders))
    ∧ (∀ (res : List String) (t : HirTy) (sp : Span) (s : String),
        snip t.span = some s →
        extract_hir_event_snippet snip (HirTy.path res (some [some t]) sp)
            Applicability.machineApplicable
          = (s, Applicability.machineApplicable))
    ∧ (∀ (res : List String) (t : HirTy) (sp : Span),
        snip t.span = none →
        extract_hir_event_snippet snip (HirTy.path res (some [some t]) sp)
            Applicability.machineApplicable
          = ("T", Applicability.hasPlaceholders))
    ∧ (∀ h : HirTy, hir_event_shape_ok h = false →
        extract_hir_event_snippet snip h Applicability.machineApplicable
          = ("T", Applicability.hasPlaceholders))
    ∧ (∀ (expr_ty : Expr → TyModel) (recv arg : Expr)
        (pgs : Option (List (Option HirTy))) (msp : Span),
        match_type ((expr_ty recv).peel_refs) paths.APP = true →
        match_type (expr_ty arg) paths.EVENTS = true →
        InsertEventResource.check_expr expr_ty snip
            (Expr.methodCall "insert_resource" recv [arg] pgs msp)
          = [mk_event_diag msp insert_resource_msg
              (extract_ty_event_snippet (expr_ty arg)
                Applicability.machineApplicable)])
    ∧ (∀ (expr_ty : Expr → TyModel) (recv : Expr) (rty : HirTy) (msp : Span),
        match_type ((expr_ty recv).peel_refs) paths.APP = true →
        match_type (lower_ty rty) paths.EVENTS = true →
        InsertEventResource.check_expr expr_ty snip
            (Expr.methodCall "init_resource" recv [] (some [some rty]) msp)
          = [mk_event_diag msp init_resource_msg
              (extract_hir_event_snippet snip rty
                Applicability.machineApplicable)]) :=
  ⟨fun _ _ _ => rfl,
   extract_ty_not_extractable,
   fun res t sp s hs => extract_hir_snip_some snip res t sp s hs,
   fun res t sp hs => extract_hir_snip_none snip res t sp hs,
   extract_hir_not_ok snip,
   fun expr_ty recv arg pgs msp h1 h2 =>
     check_expr_insert_emits expr_ty snip recv arg pgs msp h1 h2,
   fun expr_ty recv rty msp h1 h2 =>
     check_expr_init_emits expr_ty snip recv rty msp h1 h2⟩

/-- Witness for C3: with no source text available, the `init_resource`
form still emits its suggestion, with the placeholder snippet and
`HasPlaceholders` applicability. -/
theorem C3_witness :
    InsertEventResource.check_expr main_expr_ty (fun _ => none)
        (Expr.methodCall "init_resource" (Expr.lit ⟨0, 1⟩) []
          (some [some (HirTy.path paths.EVENTS
            (some [some (HirTy.path ["MyEvent"] none ⟨5, 6⟩)]) ⟨4, 7⟩)]) ⟨2, 3⟩)
      = [mk_event_diag ⟨2, 3⟩ init_resource_msg
          ("T", Applicability.hasPlaceholders)] := by
  have h := (C3_snippet_applicability (fun _ => none)).2.2.2.2.2.2 main_expr_ty
    (Expr.lit ⟨0, 1⟩)
    (HirTy.path paths.EVENTS
      (some [some (HirTy.path ["MyEvent"] none ⟨5, 6⟩)]) ⟨4, 7⟩) ⟨2, 3⟩ rfl rfl
  exact h

/-- C4 counterexample: for the entry point `fn main() { App::new().run(); }`
(the call spanning bytes 16-32 and the trailing semicolon at byte 32) the
rule emits exactly one diagnostic at the call span, but its sole
suggestion replaces only the empty return-type span at byte 9 with
`"-> AppExit"` — no suggested edit covers the statement terminator, so the
claim that the suggestion also removes the terminator is false. -/
theorem C4_counterexample :
    MainReturnWithoutAppExit.check_fn main_expr_ty true
        { output := FnRetTy.defaultReturn ⟨9, 9⟩ } main_body
      = [{ sp := ⟨27, 32⟩
           message := main_return_desc
           help := none
           suggestions := [{ sp := ⟨9, 9⟩
                             text := "-> AppExit"
                             applicability := Applicability.maybeIncorrect }] }]
    ∧ span_covers ⟨9, 9⟩ 32 = false :=
  ⟨rfl, rfl⟩

/-- C4 (amended): for an entry point with no declared return type whose
body contains exactly one `app.run()` call on the framework application
type, the rule emits exactly one diagnostic at the span of that call, whose
single suggestion replaces the return position with `"-> AppExit"` at
`MaybeIncorrect` applicability (the trailing statement terminator is not
touched by any suggested edit). -/
theorem C4_single_run_call_single_diag (expr_ty : Expr → TyModel)
    (ret_sp call_sp : Span) (body : Expr)
    (h : app_run_spans expr_ty body = [call_sp]) :
    MainReturnWithoutAppExit.check_fn expr_ty true
        { output := FnRetTy.defaultReturn ret_sp } body
      = [{ sp := call_sp
           message := main_return_desc
           help := none
           suggestions := [{ sp := ret_sp
                             text := "-> AppExit"
                             applicability := Applicability.maybeIncorrect }] }] := by
  show (app_run_spans expr_ty body).map _ = _
  rw [h]
  rfl

/-- Witness for C4 (amended) at the concrete `fn main` body. -/
theorem C4_witness :
    MainReturnWithoutAppExit.check_fn main_expr_ty true
        { output := FnRetTy.defaultReturn ⟨9, 9⟩ } main_body
      = [{ sp := ⟨27, 32⟩
           message := main_return_desc
           help := none
           suggestions := [{ sp := ⟨9, 9⟩
                             text := "-> AppExit"
                             applicability := Applicability.maybeIncorrect }] }] :=
  C4_single_run_call_single_diag main_expr_ty ⟨9, 9⟩ ⟨27, 32⟩ main_body rfl

/-- C5: the rule fires only when the declared return type of the entry point is
absent or the explicit unit type; for any written non-unit return type it
emits nothing, whatever the body contains, and whenever it does emit the
function was the entry point with an absent-or-unit return type. -/
theorem C5_return_type_guard :
    (∀ (expr_ty : Expr → TyModel) (ep : Bool) (t : HirTy) (body : Expr),
      is_unit_hir_ty t = false →
      MainReturnWithoutAppExit.check_fn expr_ty ep
        { output := FnRetTy.ret t } body = [])
    ∧ (∀ (expr_ty : Expr → TyModel) (ep : Bool) (out : FnRetTy) (body : Expr),
      MainReturnWithoutAppExit.check_fn expr_ty ep { output := out } body ≠ [] →
      ep = true ∧ ret_absent_or_unit out = true) := by
  constructor
  · intro expr_ty ep t body ht
    cases ep
    · rfl
    · show (match fn_return_span (FnRetTy.ret t) with
        | none => ([] : List Diagnostic)
        | some fn_ret_sp => (app_run_spans expr_ty body).map (fun call_span =>
            { sp := call_span
              message := main_return_desc
              help := none
              suggestions :=
                [{ sp := fn_ret_sp
                   text := "-> AppExit"
                   applicability := Applicability.maybeIncorrect }] })) = []
      rw [fn_return_span_ret_not_unit t ht]
  · intro expr_ty ep out body hne
    cases ep
    · exact absurd rfl hne
    · refine ⟨rfl, ?_⟩
      cases hsp : fn_return_span out with
      | none =>
        refine absurd ?_ hne
        show (match fn_return_span out with
          | none => ([] : List Diagnostic)
          | some fn_ret_sp => (app_run_spans expr_ty body).map (fun call_span =>
              { sp := call_span
                message := main_return_desc
                help := none
                suggestions :=
                  [{ sp := fn_ret_sp
                     text := "-> AppExit"
                     applicability := Applicability.maybeIncorrect }] })) = []
        rw [hsp]
      | some sp => exact ret_absent_or_unit_of_span out sp hsp

/-- Witness for C5: a declared `AppExit` return type silences the rule
even on a body with an `App::run()` call, and the firing case implies the
guard. -/
theorem C5_witness :
    MainReturnWithoutAppExit.check_fn main_expr_ty true
        { output := FnRetTy.ret (HirTy.path ["bevy_app", "app", "AppExit"] none ⟨9, 16⟩) }
        main_body = []
    ∧ (true = true ∧ ret_absent_or_unit (FnRetTy.defaultReturn ⟨9, 9⟩) = true) := by
  constructor
  · exact C5_return_type_guard.1 main_expr_ty true
      (HirTy.path ["bevy_app", "app", "AppExit"] none ⟨9, 16⟩) main_body rfl
  · exact C5_return_type_guard.2 main_expr_ty true
      (FnRetTy.defaultReturn ⟨9, 9⟩) main_body (by decide)

/-- C6: a selected element whose layout is indeterminate (`is_zero_sized`
yields `none`, for a non-normalizable type or a failed layout computation)
is skipped without a diagnostic and without aborting: the output of the rule on
a query containing the element is exactly its output with the element
removed, so the remaining elements are still analyzed. -/
theorem C6_indeterminate_layout_skipped (is_norm : TyModel → Bool)
    (layout_of : TyModel → Option Nat) (tup_sp sp : Span)
    (pre post : List HirTy) (bad : HirTy)
    (h : is_zero_sized is_norm layout_of ((lower_ty bad).peel_refs) = none) :
    ZstQuery.check_ty is_norm layout_of
        (query_hir_ty (pre ++ bad :: post) tup_sp sp)
      = ZstQuery.check_ty is_norm layout_of
        (query_hir_ty (pre ++ post) tup_sp sp) := by
  rw [check_ty_query_eq, check_ty_query_eq]
  have hbad : zst_elem_diag is_norm layout_of bad = none := by
    simp [zst_elem_diag, h]
  simp [List.filterMap_append, List.filterMap_cons, hbad]

/-- Witness for C6: a generic element with no computable layout is skipped
while the rest of the query is still processed. -/
theorem C6_witness :
    ZstQuery.check_ty (fun _ => true) (fun _ => none)
        (query_hir_ty [HirTy.otherTy ⟨0, 0⟩, HirTy.path ["Foo"] none ⟨1, 2⟩]
          ⟨3, 4⟩ ⟨5, 6⟩)
      = ZstQuery.check_ty (fun _ => true) (fun _ => none)
        (query_hir_ty [HirTy.path ["Foo"] none ⟨1, 2⟩] ⟨3, 4⟩ ⟨5, 6⟩) :=
  C6_indeterminate_layout_skipped (fun _ => true) (fun _ => none) ⟨3, 4⟩ ⟨5, 6⟩
    [] [HirTy.path ["Foo"] none ⟨1, 2⟩] (HirTy.otherTy ⟨0, 0⟩) rfl

/-- C7: the matcher used by the rules — `match_type` after `peel_refs` —
recognizes a type identically under any number of reference wrappers of
either mutability, and reference stripping is idempotent. -/
theorem C7_ref_stripping_invariant (ms : List Bool) (ty : TyModel)
    (path : List String) :
    match_type ((wrap_refs ms ty).peel_refs) path
      = match_type ty.peel_refs path
    ∧ ty.peel_refs.peel_refs = ty.peel_refs := by
  constructor
  · rw [peel_refs_wrap_refs]
  · exact peel_refs_idem ty

/-- C8: when a `register_lints` hook was already installed, the hook
installed by `BevyLintCallback::config` chains to it: on every store it
first runs the previous hook and then registers the linter lints, passes
and groups. -/
theorem C8_previous_hook_chained (c : CallbackConfig) (f : LintStore → LintStore)
    (c2 : CallbackConfig) (m : LintConfigMap)
    (hprev : c.register_lints_hook = some f)
    (hconf : BevyLintCallback.config c = some (c2, m)) :
    ∃ g, c2.register_lints_hook = some g
      ∧ ∀ store, g store
          = register_groups (register_passes (register_lints (f store))) := by
  unfold BevyLintCallback.config at hconf
  cases hl : load_config c.invoked_from_cargo c.manifest c.lint_opts with
  | none =>
    rw [hl] at hconf
    cases hconf
  | some p =>
    obtain ⟨lc, o2⟩ := p
    rw [hl] at hconf
    injection hconf with hpair
    injection hpair with h1 h2
    refine ⟨install_register_lints (some f), ?_, fun store => rfl⟩
    rw [← h1]
    show some (install_register_lints c.register_lints_hook) = _
    rw [hprev]

/-- Witness for C8 at a concrete config with a previously installed
hook. -/
theorem C8_witness :
    ∃ g,
      ({ invoked_from_cargo := false
         manifest := none
         lint_opts := []
         register_lints_hook :=
           some (install_register_lints (some prev_hook)) } :
        CallbackConfig).register_lints_hook = some g
      ∧ ∀ store, g store
          = register_groups (register_passes (register_lints (prev_hook store))) :=
  C8_previous_hook_chained sample_callback_config prev_hook _ [] rfl rfl

/-- C9: after a successful load, for every section entry whose value is an
inline table the stored parameter table is the entry minus its `level`
key, so a `with_config` lookup for that rule identifier observes exactly
the key/value pairs of the entry minus `level` (the empty remainder is observed
as the empty table, through the empty-default path). -/
theorem C9_params_minus_level (doc cfg : List (String × Item))
    (opts opts2 : List (String × Level)) (map : LintConfigMap)
    (k : String) (t : InlineTable)
    (hsec : doc_linter_section doc = some cfg)
    (hnd : (cfg.map Prod.fst).Nodup)
    (hmem : (k, Item.value (TValue.inlineTable t)) ∈ cfg)
    (hload : load_config true (some doc) opts = some (map, opts2)) :
    ∀ (R : Type) (func : InlineTable → R),
      with_config map k func = func (InlineTable.remove t "level") := by
  intro R func
  have hmap := load_config_some_inv doc cfg opts opts2 map hsec hload
  subst hmap
  have hlook := assoc_get_build_lint_config cfg k t hnd hmem
  by_cases he : (InlineTable.remove t "level").isEmpty
  · rw [if_pos he] at hlook
    have hnil : InlineTable.remove t "level" = [] := by
      cases hrem : InlineTable.remove t "level" with
      | nil => rfl
      | cons a l =>
        rw [hrem] at he
        cases he
    simp only [with_config, hlook, hnil]
  · rw [if_neg he] at hlook
    simp only [with_config, hlook]

/-- Witness for C9 at the concrete sample manifest. -/
theorem C9_witness :
    with_config [("insert_event_resource", [("check_private", TValue.boolean true)])]
        "insert_event_resource" (fun t => t)
      = [("check_private", TValue.boolean true)] := by
  have h := C9_params_minus_level sample_manifest sample_section []
    [("bevy::insert_event_resource", Level.allow), ("bevy::zst_query", Level.warn)]
    [("insert_event_resource", [("check_private", TValue.boolean true)])]
    "insert_event_resource"
    [("level", TValue.str "allow"), ("check_private", TValue.boolean true)]
    rfl (by decide) (List.mem_cons_self _ _) rfl InlineTable (fun t => t)
  exact h

/-- C10: after any successful load every stored parameter table is
non-empty — an inline-table entry that becomes empty after removing
`level` is not inserted — so through `with_config` a rule configured with
only a level is indistinguishable from a rule with no configuration
entry. -/
theorem C10_no_empty_param_tables (doc cfg : List (String × Item))
    (opts opts2 : List (String × Level)) (map : LintConfigMap)
    (hsec : doc_linter_section doc = some cfg)
    (hload : load_config true (some doc) opts = some (map, opts2)) :
    (∀ kv : String × InlineTable, kv ∈ map → kv.2.isEmpty = false)
    ∧ (∀ (k : String) (t : InlineTable), (cfg.map Prod.fst).Nodup →
        (k, Item.value (TValue.inlineTable t)) ∈ cfg →
        InlineTable.remove t "level" = [] →
        ∀ (R : Type) (func : InlineTable → R),
          with_config map k func = with_config ([] : LintConfigMap) k func) := by
  have hmap := load_config_some_inv doc cfg opts opts2 map hsec hload
  subst hmap
  constructor
  · exact build_lint_config_values_not_empty cfg
  · intro k t hnd hmem hempty R func
    have hlook := assoc_get_build_lint_config cfg k t hnd hmem
    rw [hempty] at hlook
    simp only [List.isEmpty_nil, if_true] at hlook
    simp only [with_config, hlook]
    rfl

/-- Witness for C10 at the concrete sample manifest: the `zst_query` entry
carried only a `level`, so its lookup is the same as over the empty
map. -/
theorem C10_witness :
    with_config [("insert_event_resource", [("check_private", TValue.boolean true)])]
        "zst_query" (fun t => t)
      = with_config ([] : LintConfigMap) "zst_query" (fun t => t) := by
  have h := C10_no_empty_param_tables sample_manifest sample_section []
    [("bevy::insert_event_resource", Level.allow), ("bevy::zst_query", Level.warn)]
    [("insert_event_resource", [("check_private", TValue.boolean true)])]
    rfl rfl
  exact h.2 "zst_query" [("level", TValue.str "warn")] (by decide)
    (List.mem_cons_of_mem _ (List.mem_cons_self _ _)) rfl InlineTable (fun t => t)

end BevyLint
